import Mathlib

/-!
Shallow embedding of the forecasting service in `python/chronos_forecast.py`.

Numbers are modelled as rationals (`ℚ`).  The external Chronos forecasting
engine is a black box: it is modelled as an oracle parameter of type
`Predict` that, given the handle of the loaded pipeline, a price context,
a prediction length and a sample count, returns a sample matrix.

The module-level mutable state of the Python process (`_pipeline`,
`_model_name`) is threaded explicitly as a `World` record.  In addition the
`World` carries instrumentation counters (`loads`, `acquire_calls`,
`predict_calls`) that count how often a model load was performed, how often
`get_pipeline` was entered and how often the external predict capability
was invoked; the counters change nothing about the computed values and only
make call-count properties stateable.  A pipeline handle is identified by
the serial number of the load that produced it, so two distinct loads yield
two distinct handle identities.
-/

namespace Chronos

/-- A sample matrix: one simulated future price path per row. -/
abbrev SampleMatrix := List (List ℚ)

/-- The external forecaster capability: handle, context, prediction length,
number of samples to sample matrix. -/
abbrev Predict := Nat → List ℚ → Nat → Nat → SampleMatrix

/-- Process-wide state: the module globals of the Python file plus
instrumentation counters. -/
structure World where
  pipelineCache : Option Nat
  modelName : Option String
  loads : Nat
  acquire_calls : Nat
  predict_calls : Nat
deriving DecidableEq

/-- The fixed `model_map` dictionary of `get_pipeline`. -/
def model_map : List (String × String) :=
  [("tiny", "amazon/chronos-bolt-tiny"),
   ("small", "amazon/chronos-bolt-small"),
   ("base", "amazon/chronos-bolt-base"),
   ("mini", "amazon/chronos-t5-mini"),
   ("large", "amazon/chronos-t5-large")]

/-- Resolution of a model size to a model identifier:
model_map.get(model_size, "amazon/chronos-bolt-small"). -/
def resolveModel (model_size : String) : String :=
  (model_map.lookup model_size).getD "amazon/chronos-bolt-small"

/-- The `get_pipeline` function.  Returns the cached handle unless the cache
is empty or holds a pipeline for a different identifier, in which case a new
handle is loaded (modelled by stamping it with the load serial number) and
replaces the cached one. -/
def get_pipeline (model_size : String) (w : World) : Nat × World :=
  let target_model := resolveModel model_size
  if w.pipelineCache = none ∨ w.modelName ≠ some target_model then
    let handle := w.loads
    (handle,
     { pipelineCache := some handle, modelName := some target_model,
       loads := w.loads + 1, acquire_calls := w.acquire_calls + 1,
       predict_calls := w.predict_calls })
  else
    (w.pipelineCache.getD 0, { w with acquire_calls := w.acquire_calls + 1 })

/-- Linear-interpolation percentile, the default convention of
`np.percentile`: on the sorted data `s` of length `n`, the value at rank
`q / 100 * (n - 1)` interpolated linearly between the two neighbouring
order statistics.  (`np.percentile` sorts its input; any comparison sort
yields the same sorted list, insertion sort is used here.) -/
def percentile (q : ℚ) (xs : List ℚ) : ℚ :=
  let s := List.insertionSort (· ≤ ·) xs
  let n := s.length
  if n = 0 then 0
  else
    let rank : ℚ := q / 100 * ((n : ℚ) - 1)
    let lo : Nat := ⌊rank⌋.toNat
    let hi : Nat := min (lo + 1) (n - 1)
    let frac : ℚ := rank - (lo : ℚ)
    s.getD lo 0 + frac * (s.getD hi 0 - s.getD lo 0)

/-- `np.median`: the middle order statistic for odd length, the mean of the
two middle order statistics for even length. -/
def median_np (xs : List ℚ) : ℚ :=
  let s := List.insertionSort (· ≤ ·) xs
  let n := s.length
  if n = 0 then 0
  else if n % 2 = 1 then s.getD (n / 2) 0
  else (s.getD (n / 2 - 1) 0 + s.getD (n / 2) 0) / 2

/-- Column `j` of a sample matrix (the per-step axis-0 slice that
`np.median(..., axis=0)` and `np.percentile(..., axis=0)` reduce over). -/
def column (m : SampleMatrix) (j : Nat) : List ℚ :=
  m.map (fun row => row.getD j 0)

/-- The summary record produced by `forecast_prices`. -/
structure ForecastSummary where
  median : List ℚ
  low_10 : List ℚ
  high_90 : List ℚ
  low_25 : List ℚ
  high_75 : List ℚ
  samples : SampleMatrix
  last_price : ℚ
  prediction_length : Nat
deriving DecidableEq

/-- The `forecast_prices` function: acquire a pipeline, invoke the predict
capability, and reduce each column of the sample matrix to its median and
10th/25th/75th/90th percentiles. -/
def forecast_prices (predict : Predict) (prices : List ℚ)
    (prediction_length : Nat) (num_samples : Nat) (model_size : String)
    (w : World) : ForecastSummary × World :=
  let pw := get_pipeline model_size w
  let pipeline := pw.1
  let w1 := pw.2
  let forecast_np := predict pipeline prices prediction_length num_samples
  ({ median := (List.range prediction_length).map
       (fun j => median_np (column forecast_np j)),
     low_10 := (List.range prediction_length).map
       (fun j => percentile 10 (column forecast_np j)),
     high_90 := (List.range prediction_length).map
       (fun j => percentile 90 (column forecast_np j)),
     low_25 := (List.range prediction_length).map
       (fun j => percentile 25 (column forecast_np j)),
     high_75 := (List.range prediction_length).map
       (fun j => percentile 75 (column forecast_np j)),
     samples := forecast_np,
     last_price := (prices.getLast?).getD 0,
     prediction_length := prediction_length },
   { w1 with predict_calls := w1.predict_calls + 1 })

/-- An event record with its three optional fields.  A field that is `none`
models a key that is absent from the Python event dict. -/
structure EventRecord where
  classification : Option String
  strength : Option ℚ
  residual_return : Option ℚ
deriving DecidableEq

/-- Python truthiness of an optional numeric field: present and nonzero. -/
def truthyField (o : Option ℚ) : Bool :=
  match o with
  | some r => r != 0
  | none => false

/-- The comprehension
[e.get("residual_return", 0) for e in events if e.get("residual_return")]. -/
def event_returns (events : List EventRecord) : List ℚ :=
  (events.filter (fun e => truthyField e.residual_return)).map
    (fun e => e.residual_return.getD 0)

/-- The comprehension
[e.get("strength", 0) for e in events if e.get("strength")]. -/
def event_strengths (events : List EventRecord) : List ℚ :=
  (events.filter (fun e => truthyField e.strength)).map
    (fun e => e.strength.getD 0)

/-- np.mean(event_returns) if event_returns else 0. -/
def avg_event_return (events : List EventRecord) : ℚ :=
  if event_returns events = [] then 0
  else (event_returns events).sum / ((event_returns events).length : ℚ)

/-- np.mean(event_strengths) if event_strengths else 0. -/
def avg_event_strength (events : List EventRecord) : ℚ :=
  if event_strengths events = [] then 0
  else (event_strengths events).sum / ((event_strengths events).length : ℚ)

/-- sum(1 for r in event_returns if r > 0). -/
def positive_events (events : List EventRecord) : Nat :=
  ((event_returns events).filter (fun r => 0 < r)).length

/-- sum(1 for r in event_returns if r < 0). -/
def negative_events (events : List EventRecord) : Nat :=
  ((event_returns events).filter (fun r => r < 0)).length

/-- (positive_events - negative_events) / max(len(event_returns), 1),
Python true division. -/
def event_bias (events : List EventRecord) : ℚ :=
  (((positive_events events : ℤ) - (negative_events events : ℤ) : ℤ) : ℚ)
    / ((max (event_returns events).length 1 : ℕ) : ℚ)

/-- One step of the histogram loop
event_types[cls] = event_types.get(cls, 0) + 1 on an insertion-ordered
association list (an existing key keeps its position, a new key is appended). -/
def bump (m : List (String × Nat)) (k : String) : List (String × Nat) :=
  if (m.lookup k).isSome then
    m.map (fun p => if p.1 = k then (p.1, p.2 + 1) else p)
  else m ++ [(k, 1)]

/-- The classification histogram loop of `forecast_with_events`. -/
def event_types (events : List EventRecord) : List (String × Nat) :=
  events.foldl (fun m e => bump m (e.classification.getD "unknown")) []

/-- The event_context record built by `forecast_with_events`. -/
structure EventContext where
  num_events : Nat
  avg_event_return : ℚ
  avg_event_strength : ℚ
  event_bias : ℚ
  positive_events : Nat
  negative_events : Nat
  event_types : List (String × Nat)
deriving DecidableEq

/-- The event aggregation performed inline by `forecast_with_events`:
`none` for an empty event list (the code short-circuits to
event_context = None), otherwise the statistics record. -/
def aggregate (events : List EventRecord) : Option EventContext :=
  if events = [] then none
  else some
    { num_events := events.length,
      avg_event_return := avg_event_return events,
      avg_event_strength := avg_event_strength events,
      event_bias := event_bias events,
      positive_events := positive_events events,
      negative_events := negative_events events,
      event_types := event_types events }

/-- The fixed continuation_factors table of `forecast_post_event`. -/
def continuation_factors : List (String × ℚ) :=
  [("surprising_positive", 3/10),
   ("positive_anticipated", -1/10),
   ("negative_anticipated", 1/10),
   ("surprising_negative", -2/10)]

/-- The event_analysis record built by `forecast_post_event`. -/
structure EventAnalysis where
  classification : String
  strength : ℚ
  residual_return : ℚ
  expected_continuation : ℚ
  confidence : ℚ
deriving DecidableEq

/-- The per-event analysis performed inline by `forecast_post_event`:
field extraction with defaults, table lookup with default 0, and
confidence = min(abs(strength) / 10, 1.0). -/
def analyze (event : EventRecord) : EventAnalysis :=
  let classification := event.classification.getD "unknown"
  let strength := event.strength.getD 0
  let residual_return := event.residual_return.getD 0
  let continuation := (continuation_factors.lookup classification).getD 0
  { classification := classification,
    strength := strength,
    residual_return := residual_return,
    expected_continuation := continuation,
    confidence := min (|strength| / 10) 1 }

/-- Python truthiness of an event dict: `not event` is true for None and
for the empty dict, i.e. the record is absent or all its fields are. -/
def EventRecord.isEmpty (e : EventRecord) : Bool :=
  e.classification.isNone && e.strength.isNone && e.residual_return.isNone

/-- A mode result: the base summary dict possibly merged with one extra key.
`event_context = some v` models a present "event_context" key of value `v`
(`v = none` being JSON null); `none` models an absent key, likewise for
`event_analysis`. -/
structure ForecastResult where
  summary : ForecastSummary
  event_context : Option (Option EventContext)
  event_analysis : Option EventAnalysis
deriving DecidableEq

/-- The `forecast_with_events` function.  The base forecast always uses
num_samples = 20; the merged event_context key is None exactly when the
event list is empty, which is what `aggregate` returns then. -/
def forecast_with_events (predict : Predict) (prices : List ℚ)
    (events : List EventRecord) (prediction_length : Nat)
    (model_size : String) (w : World) : ForecastResult × World :=
  let bw := forecast_prices predict prices prediction_length 20 model_size w
  ({ summary := bw.1, event_context := some (aggregate events),
     event_analysis := none }, bw.2)

/-- The `forecast_post_event` function.  The base forecast always uses
num_samples = 20; a falsy event (None or an empty dict) yields the bare
base summary, otherwise the event_analysis key is merged in. -/
def forecast_post_event (predict : Predict) (prices : List ℚ)
    (event : Option EventRecord) (prediction_length : Nat)
    (model_size : String) (w : World) : ForecastResult × World :=
  let bw := forecast_prices predict prices prediction_length 20 model_size w
  match event with
  | none => ({ summary := bw.1, event_context := none, event_analysis := none }, bw.2)
  | some e =>
    if e.isEmpty then
      ({ summary := bw.1, event_context := none, event_analysis := none }, bw.2)
    else
      ({ summary := bw.1, event_context := none,
         event_analysis := some (analyze e) }, bw.2)

/-- A fresh process state: nothing cached, no calls made. -/
def initWorld : World :=
  { pipelineCache := none, modelName := none, loads := 0,
    acquire_calls := 0, predict_calls := 0 }

/-- A concrete forecaster stub returning a fixed 4-row sample matrix,
used to instantiate theorems at concrete inputs. -/
def stubPredict : Predict :=
  fun _ _ _ _ => [[1, 2, 3], [2, 3, 4], [0, 1, 2], [5, 5, 5]]

/-- The three forecast modes of the CLI. -/
inductive Mode where
  | forecast
  | with_events
  | post_event
deriving DecidableEq

/-- Outcome of one invocation: either one result document or one
single-key error document (with non-zero exit). -/
inductive RunResult where
  | ok : ForecastResult → RunResult
  | error : String → RunResult
deriving DecidableEq

/-- The body of `main` after JSON parsing: reject an empty price list with
the structured error before any forecast-mode dispatch, otherwise run the
selected mode (always with num_samples = 20). -/
def run (predict : Predict) (mode : Mode) (model : String) (days : Nat)
    (prices : List ℚ) (events : List EventRecord) (event : Option EventRecord)
    (w : World) : RunResult × World :=
  if prices = [] then (RunResult.error "No prices provided", w)
  else
    match mode with
    | .forecast =>
      let sw := forecast_prices predict prices days 20 model w
      (RunResult.ok { summary := sw.1, event_context := none, event_analysis := none },
       sw.2)
    | .with_events =>
      let rw := forecast_with_events predict prices events days model w
      (RunResult.ok rw.1, rw.2)
    | .post_event =>
      let rw := forecast_post_event predict prices event days model w
      (RunResult.ok rw.1, rw.2)

/-! Helper lemmas about the pipeline cache. -/

lemma get_pipeline_miss (size : String) (w : World)
    (h : w.pipelineCache = none ∨ w.modelName ≠ some (resolveModel size)) :
    get_pipeline size w =
      (w.loads,
       { pipelineCache := some w.loads, modelName := some (resolveModel size),
         loads := w.loads + 1, acquire_calls := w.acquire_calls + 1,
         predict_calls := w.predict_calls }) := by
  simp only [get_pipeline, if_pos h]

lemma get_pipeline_hit (size : String) (w : World)
    (h1 : w.pipelineCache ≠ none) (h2 : w.modelName = some (resolveModel size)) :
    get_pipeline size w =
      (w.pipelineCache.getD 0, { w with acquire_calls := w.acquire_calls + 1 }) := by
  have hc : ¬(w.pipelineCache = none ∨ w.modelName ≠ some (resolveModel size)) := by
    push_neg
    exact ⟨h1, h2⟩
  simp only [get_pipeline, if_neg hc]

lemma get_pipeline_state (size : String) (w : World) :
    (get_pipeline size w).2.pipelineCache = some (get_pipeline size w).1 ∧
    (get_pipeline size w).2.modelName = some (resolveModel size) := by
  by_cases h : w.pipelineCache = none ∨ w.modelName ≠ some (resolveModel size)
  · rw [get_pipeline_miss size w h]
    exact ⟨rfl, rfl⟩
  · push_neg at h
    rw [get_pipeline_hit size w h.1 h.2]
    refine ⟨?_, h.2⟩
    obtain ⟨x, hx⟩ := Option.ne_none_iff_exists.mp h.1
    simp [← hx]

/-- Claim C2: running the forecast mode on an empty price list yields the
structured error document and leaves the world untouched: the handle cache
is never entered, no load happens, and the predict capability is never
invoked. -/
theorem empty_input_rejected (predict : Predict) (model : String) (days : Nat)
    (events : List EventRecord) (event : Option EventRecord) (w : World) :
    run predict Mode.forecast model days [] events event w =
      (RunResult.error "No prices provided", w) ∧
    (run predict Mode.forecast model days [] events event w).2.acquire_calls =
      w.acquire_calls ∧
    (run predict Mode.forecast model days [] events event w).2.loads = w.loads ∧
    (run predict Mode.forecast model days [] events event w).2.predict_calls =
      w.predict_calls :=
  ⟨rfl, rfl, rfl, rfl⟩

/-- Claim C3: consecutive acquire calls.  On an empty cache the first call
performs one load and caches the new handle; a second call resolving to the
identifier already cached returns the same handle and performs no load
(only the call counter moves); a second call resolving to a different
identifier performs exactly one load and the newly loaded handle replaces
the cached one.  At most one handle exists at any time since the cache is a
single optional field. -/
theorem cache_coherence (size1 size2 : String) (w : World) :
    (w.pipelineCache = none →
      (get_pipeline size1 w).2.loads = w.loads + 1 ∧
      (get_pipeline size1 w).2.pipelineCache = some (get_pipeline size1 w).1) ∧
    (resolveModel size2 = resolveModel size1 →
      get_pipeline size2 (get_pipeline size1 w).2 =
        ((get_pipeline size1 w).1,
         { (get_pipeline size1 w).2 with
             acquire_calls := (get_pipeline size1 w).2.acquire_calls + 1 })) ∧
    (resolveModel size2 ≠ resolveModel size1 →
      (get_pipeline size2 (get_pipeline size1 w).2).2.loads =
        (get_pipeline size1 w).2.loads + 1 ∧
      (get_pipeline size2 (get_pipeline size1 w).2).2.pipelineCache =
        some (get_pipeline size2 (get_pipeline size1 w).2).1 ∧
      (get_pipeline size2 (get_pipeline size1 w).2).2.modelName =
        some (resolveModel size2)) := by
  refine ⟨?_, ?_, ?_⟩
  · intro h
    rw [get_pipeline_miss size1 w (Or.inl h)]
    exact ⟨rfl, rfl⟩
  · intro h
    have hs := get_pipeline_state size1 w
    have hne : (get_pipeline size1 w).2.pipelineCache ≠ none := by
      rw [hs.1]
      exact Option.some_ne_none _
    have hmod : (get_pipeline size1 w).2.modelName = some (resolveModel size2) := by
      rw [hs.2, h]
    rw [get_pipeline_hit size2 _ hne hmod, hs.1]
    simp [hs.1]
  · intro h
    have hs := get_pipeline_state size1 w
    have hcond : (get_pipeline size1 w).2.pipelineCache = none ∨
        (get_pipeline size1 w).2.modelName ≠ some (resolveModel size2) := by
      refine Or.inr ?_
      rw [hs.2]
      simp only [ne_eq, Option.some.injEq]
      exact fun hh => h hh.symm
    rw [get_pipeline_miss size2 _ hcond]
    exact ⟨rfl, rfl, rfl⟩

/-- Witness for C3 at concrete sizes and the fresh world. -/
theorem cache_coherence_witness :
    (get_pipeline "small" (get_pipeline "small" initWorld).2 =
      ((get_pipeline "small" initWorld).1,
       { (get_pipeline "small" initWorld).2 with
           acquire_calls := (get_pipeline "small" initWorld).2.acquire_calls + 1 })) ∧
    (get_pipeline "large" (get_pipeline "small" initWorld).2).2.loads =
      (get_pipeline "small" initWorld).2.loads + 1 ∧
    (get_pipeline "small" initWorld).2.loads = initWorld.loads + 1 :=
  ⟨(cache_coherence "small" "small" initWorld).2.1 rfl,
   ((cache_coherence "small" "large" initWorld).2.2 (by decide)).1,
   ((cache_coherence "small" "large" initWorld).1 rfl).1⟩

/-- Claim C4: any unrecognized model size resolves to the same identifier
as "small", and the whole acquire behaves identically. -/
theorem model_size_fallback (s : String)
    (h : s ∉ ["tiny", "mini", "small", "base", "large"]) :
    resolveModel s = resolveModel "small" ∧
    ∀ w : World, get_pipeline s w = get_pipeline "small" w := by
  simp only [List.mem_cons, List.not_mem_nil, or_false, not_or] at h
  obtain ⟨h1, h2, h3, h4, h5⟩ := h
  have hl : model_map.lookup s = none := by
    simp [model_map, List.lookup, beq_eq_false_iff_ne.mpr h1,
      beq_eq_false_iff_ne.mpr h2, beq_eq_false_iff_ne.mpr h3,
      beq_eq_false_iff_ne.mpr h4, beq_eq_false_iff_ne.mpr h5]
  have hres : resolveModel s = resolveModel "small" := by
    rw [resolveModel, hl, resolveModel]
    simp [model_map, List.lookup]
  refine ⟨hres, fun w => ?_⟩
  simp only [get_pipeline]
  rw [hres]

/-- Witness for C4 at the concrete size "unknown-size". -/
theorem model_size_fallback_witness :
    resolveModel "unknown-size" = resolveModel "small" ∧
    get_pipeline "unknown-size" initWorld = get_pipeline "small" initWorld :=
  ⟨(model_size_fallback "unknown-size" (by decide)).1,
   (model_size_fallback "unknown-size" (by decide)).2 initWorld⟩

lemma filter_pos_add_filter_neg_le (l : List ℚ) :
    (l.filter (fun r => 0 < r)).length + (l.filter (fun r => r < 0)).length ≤
      l.length := by
  induction l with
  | nil => simp
  | cons a t ih =>
    by_cases h1 : (0 : ℚ) < a
    · have h2 : ¬a < 0 := by linarith
      simp only [List.filter_cons, decide_eq_true_eq, h1, h2, if_true, if_false,
        List.length_cons]
      omega
    · by_cases h2 : a < 0
      · simp only [List.filter_cons, decide_eq_true_eq, h1, h2, if_true, if_false,
          List.length_cons]
        omega
      · simp only [List.filter_cons, decide_eq_true_eq, h1, h2, if_false,
          List.length_cons]
        omega

/-- Claim C5: the event bias equals
(positive count - negative count) / max(1, number of events contributing a
residual return), and always lies in [-1, 1]. -/
theorem sentiment_bias_bound (events : List EventRecord) :
    event_bias events =
      ((positive_events events : ℚ) - (negative_events events : ℚ)) /
        max 1 ((event_returns events).length : ℚ) ∧
    -1 ≤ event_bias events ∧ event_bias events ≤ 1 := by
  have hPN : positive_events events + negative_events events ≤
      (event_returns events).length :=
    filter_pos_add_filter_neg_le (event_returns events)
  have hd1 : (1 : ℚ) ≤ ((max (event_returns events).length 1 : ℕ) : ℚ) := by
    exact_mod_cast le_max_right (event_returns events).length 1
  have hdL : ((event_returns events).length : ℚ) ≤
      ((max (event_returns events).length 1 : ℕ) : ℚ) := by
    exact_mod_cast le_max_left (event_returns events).length 1
  have hd0 : (0 : ℚ) < ((max (event_returns events).length 1 : ℕ) : ℚ) :=
    lt_of_lt_of_le one_pos hd1
  have hPc : (positive_events events : ℚ) + (negative_events events : ℚ) ≤
      ((event_returns events).length : ℚ) := by exact_mod_cast hPN
  have hP0 : (0 : ℚ) ≤ (positive_events events : ℚ) := Nat.cast_nonneg _
  have hN0 : (0 : ℚ) ≤ (negative_events events : ℚ) := Nat.cast_nonneg _
  refine ⟨?_, ?_, ?_⟩
  · rw [event_bias]
    push_cast
    rw [max_comm]
  · rw [event_bias, le_div_iff₀ hd0]
    push_cast at hPc hd1 hdL ⊢
    linarith
  · rw [event_bias, div_le_one hd0]
    push_cast at hPc hd1 hdL ⊢
    linarith

lemma event_types_all_unknown (events : List EventRecord)
    (h : ∀ e ∈ events, e.classification = none) (k : Nat) :
    events.foldl (fun m e => bump m (e.classification.getD "unknown"))
        [("unknown", k)] = [("unknown", k + events.length)] := by
  induction events generalizing k with
  | nil => simp
  | cons e es ih =>
    have he : e.classification = none := h e (by simp)
    have hstep : bump [("unknown", k)] (e.classification.getD "unknown") =
        [("unknown", k + 1)] := by
      rw [he]
      simp [bump, List.lookup]
    simp only [List.foldl_cons, hstep]
    rw [ih (fun x hx => h x (by simp [hx]))]
    have : k + 1 + es.length = k + (e :: es).length := by
      simp [List.length_cons]
      omega
    rw [this]

/-- Claim C6: aggregating the empty event list yields null, and aggregating
a non-empty list of all-absent records yields a context counting the
events, zero means and bias, zero positive and negative counts, and a
histogram sending "unknown" to the number of events. -/
theorem aggregate_emptiness :
    aggregate ([] : List EventRecord) = none ∧
    ∀ events : List EventRecord, events ≠ [] →
      (∀ e ∈ events, e = ⟨none, none, none⟩) →
      aggregate events = some
        { num_events := events.length, avg_event_return := 0,
          avg_event_strength := 0, event_bias := 0,
          positive_events := 0, negative_events := 0,
          event_types := [("unknown", events.length)] } := by
  refine ⟨rfl, ?_⟩
  intro events hne hall
  have hret : event_returns events = [] := by
    rw [event_returns]
    have hf : events.filter (fun e => truthyField e.residual_return) = [] := by
      rw [List.filter_eq_nil_iff]
      intro e he
      rw [hall e he]
      simp [truthyField]
    rw [hf]
    rfl
  have hstr : event_strengths events = [] := by
    rw [event_strengths]
    have hf : events.filter (fun e => truthyField e.strength) = [] := by
      rw [List.filter_eq_nil_iff]
      intro e he
      rw [hall e he]
      simp [truthyField]
    rw [hf]
    rfl
  have htypes : event_types events = [("unknown", events.length)] := by
    rw [event_types]
    match events, hne with
    | e :: es, _ =>
      have he : e.classification = none := by rw [hall e (by simp)]
      have hstep : bump [] (e.classification.getD "unknown") = [("unknown", 1)] := by
        rw [he]
        rfl
      simp only [List.foldl_cons, hstep]
      rw [event_types_all_unknown es (fun x hx => by rw [hall x (by simp [hx])]) 1]
      simp [List.length_cons]
      omega
  have hpos : positive_events events = 0 := by
    rw [positive_events, hret]
    rfl
  have hneg : negative_events events = 0 := by
    rw [negative_events, hret]
    rfl
  have h1 : avg_event_return events = 0 := by rw [avg_event_return, if_pos hret]
  have h2 : avg_event_strength events = 0 := by
    rw [avg_event_strength, if_pos hstr]
  have h3 : event_bias events = 0 := by
    rw [event_bias, hpos, hneg]
    simp
  rw [aggregate, if_neg hne, h1, h2, h3, hpos, hneg, htypes]

/-- Witness for C6 at the singleton list of the all-absent record. -/
theorem aggregate_emptiness_witness :
    aggregate [(⟨none, none, none⟩ : EventRecord)] = some
      { num_events := 1, avg_event_return := 0, avg_event_strength := 0,
        event_bias := 0, positive_events := 0, negative_events := 0,
        event_types := [("unknown", 1)] } :=
  aggregate_emptiness.2 [⟨none, none, none⟩] (List.cons_ne_nil _ _)
    (fun e he => by simpa using he)

/-- Claim C7: the confidence of an analyzed event is
min(abs(strength) / 10, 1), always in [0, 1]; strength 50 clamps to 1 and
strength 3 gives 3/10. -/
theorem confidence_clamp :
    (∀ e : EventRecord,
       (analyze e).confidence = min (|e.strength.getD 0| / 10) 1 ∧
       0 ≤ (analyze e).confidence ∧ (analyze e).confidence ≤ 1) ∧
    (analyze ⟨some "x", some 50, none⟩).confidence = 1 ∧
    (analyze ⟨none, some 3, none⟩).confidence = 3 / 10 := by
  refine ⟨fun e => ⟨rfl, ?_, ?_⟩, ?_, ?_⟩
  · simp only [analyze]
    exact le_min (by positivity) zero_le_one
  · simp only [analyze]
    exact min_le_right _ _
  · norm_num [analyze]
  · norm_num [analyze]

/-- Claim C8: with an empty event list, forecast_with_events produces
exactly the forecast_prices record (num_samples fixed at 20), the same
state evolution, and one extra event_context key holding null. -/
theorem mode_composition (predict : Predict) (prices : List ℚ) (n : Nat)
    (size : String) (w : World) (_hp : prices ≠ []) (_hn : 0 < n) :
    forecast_with_events predict prices [] n size w =
      ({ summary := (forecast_prices predict prices n 20 size w).1,
         event_context := some none, event_analysis := none },
       (forecast_prices predict prices n 20 size w).2) := by
  simp [forecast_with_events, aggregate]

/-- Witness for C8 at a concrete stub forecaster and price list. -/
theorem mode_composition_witness :
    forecast_with_events stubPredict [100, 101] [] 3 "small" initWorld =
      ({ summary := (forecast_prices stubPredict [100, 101] 3 20 "small" initWorld).1,
         event_context := some none, event_analysis := none },
       (forecast_prices stubPredict [100, 101] 3 20 "small" initWorld).2) :=
  mode_composition stubPredict [100, 101] 3 "small" initWorld
    (List.cons_ne_nil _ _) (by norm_num)

/-- Claim C9: analyze is total over sparse records (it is a function into
EventAnalysis); any classification outside the four-entry table, including
an absent one, gets expected_continuation 0, and the four known
classifications get their table coefficients. -/
theorem post_event_totality :
    (∀ (e : EventRecord) (c : String),
       e.classification.getD "unknown" = c →
       c ∉ ["surprising_positive", "positive_anticipated",
            "negative_anticipated", "surprising_negative"] →
       (analyze e).expected_continuation = 0) ∧
    (∀ e : EventRecord, e.classification = none →
       (analyze e).expected_continuation = 0) ∧
    (∀ s r : Option ℚ,
       (analyze ⟨some "surprising_positive", s, r⟩).expected_continuation = 3 / 10 ∧
       (analyze ⟨some "positive_anticipated", s, r⟩).expected_continuation = -1 / 10 ∧
       (analyze ⟨some "negative_anticipated", s, r⟩).expected_continuation = 1 / 10 ∧
       (analyze ⟨some "surprising_negative", s, r⟩).expected_continuation = -2 / 10) := by
  have hunk : ∀ c : String,
      c ∉ ["surprising_positive", "positive_anticipated",
           "negative_anticipated", "surprising_negative"] →
      (continuation_factors.lookup c).getD 0 = 0 := by
    intro c hc
    simp only [List.mem_cons, List.not_mem_nil, or_false, not_or] at hc
    obtain ⟨h1, h2, h3, h4⟩ := hc
    simp [continuation_factors, List.lookup, beq_eq_false_iff_ne.mpr h1,
      beq_eq_false_iff_ne.mpr h2, beq_eq_false_iff_ne.mpr h3,
      beq_eq_false_iff_ne.mpr h4]
  refine ⟨?_, ?_, ?_⟩
  · intro e c hc hmem
    simp only [analyze]
    rw [hc]
    exact hunk c hmem
  · intro e he
    simp only [analyze, he]
    exact hunk "unknown" (by decide)
  · intro s r
    refine ⟨?_, ?_, ?_, ?_⟩ <;> rfl

/-- Witness for C9 at concrete sparse events. -/
theorem post_event_totality_witness :
    (analyze ⟨some "x", none, none⟩).expected_continuation = 0 ∧
    (analyze ⟨none, none, none⟩).expected_continuation = 0 :=
  ⟨post_event_totality.1 ⟨some "x", none, none⟩ "x" rfl (by decide),
   post_event_totality.2.1 ⟨none, none, none⟩ rfl⟩

/-- Claim C10: forecast_post_event treats the all-absent event record
exactly like a null event, in both cases returning the bare base summary
with no event_analysis key, and the event_analysis key is present exactly
when the supplied record is non-null with at least one present field. -/
theorem post_event_empty_like_null (predict : Predict) (prices : List ℚ)
    (n : Nat) (size : String) (w : World) (event : Option EventRecord) :
    (forecast_post_event predict prices (some ⟨none, none, none⟩) n size w =
       forecast_post_event predict prices none n size w) ∧
    ((forecast_post_event predict prices none n size w).1 =
       { summary := (forecast_prices predict prices n 20 size w).1,
         event_context := none, event_analysis := none }) ∧
    ((forecast_post_event predict prices event n size w).1.event_analysis ≠ none ↔
       ∃ e, event = some e ∧ e.isEmpty = false) := by
  refine ⟨?_, ?_, ?_⟩
  · simp [forecast_post_event, EventRecord.isEmpty]
  · simp [forecast_post_event]
  · match event with
    | none => simp [forecast_post_event]
    | some e =>
      by_cases he : e.isEmpty
      · simp [forecast_post_event, he]
      · simp [forecast_post_event, he]

/-! Percentile monotonicity. -/

lemma sorted_getD_le (s : List ℚ) (hs : s.Sorted (· ≤ ·)) {i j : Nat}
    (hij : i ≤ j) (hj : j < s.length) : s.getD i 0 ≤ s.getD j 0 := by
  have hi : i < s.length := lt_of_le_of_lt hij hj
  rw [List.getD_eq_getElem s 0 hi, List.getD_eq_getElem s 0 hj]
  have := hs.rel_get_of_le (a := ⟨i, hi⟩) (b := ⟨j, hj⟩) hij
  simpa using this

lemma interp_mono (s : List ℚ) (hs : s.Sorted (· ≤ ·)) (hne : s ≠ [])
    {r1 r2 : ℚ} (h0 : 0 ≤ r1) (h12 : r1 ≤ r2) (hr2 : r2 ≤ (s.length : ℚ) - 1) :
    s.getD ⌊r1⌋.toNat 0 + (r1 - (⌊r1⌋.toNat : ℚ)) *
        (s.getD (min (⌊r1⌋.toNat + 1) (s.length - 1)) 0 - s.getD ⌊r1⌋.toNat 0) ≤
      s.getD ⌊r2⌋.toNat 0 + (r2 - (⌊r2⌋.toNat : ℚ)) *
        (s.getD (min (⌊r2⌋.toNat + 1) (s.length - 1)) 0 - s.getD ⌊r2⌋.toNat 0) := by
  have hn : 1 ≤ s.length := List.length_pos.mpr hne
  have h02 : (0 : ℚ) ≤ r2 := le_trans h0 h12
  have hf1 : (0 : ℤ) ≤ ⌊r1⌋ := Int.floor_nonneg.mpr h0
  have hf2 : (0 : ℤ) ≤ ⌊r2⌋ := Int.floor_nonneg.mpr h02
  have hcast1 : ((⌊r1⌋.toNat : ℕ) : ℚ) = ((⌊r1⌋ : ℤ) : ℚ) := by
    exact_mod_cast congrArg (fun z : ℤ => (z : ℚ)) (Int.toNat_of_nonneg hf1)
  have hcast2 : ((⌊r2⌋.toNat : ℕ) : ℚ) = ((⌊r2⌋ : ℤ) : ℚ) := by
    exact_mod_cast congrArg (fun z : ℤ => (z : ℚ)) (Int.toNat_of_nonneg hf2)
  have hfr1lo : ((⌊r1⌋.toNat : ℕ) : ℚ) ≤ r1 := by
    rw [hcast1]
    exact Int.floor_le r1
  have hfr1hi : r1 < ((⌊r1⌋.toNat : ℕ) : ℚ) + 1 := by
    rw [hcast1]
    exact Int.lt_floor_add_one r1
  have hfr2lo : ((⌊r2⌋.toNat : ℕ) : ℚ) ≤ r2 := by
    rw [hcast2]
    exact Int.floor_le r2
  have hlo2n : ⌊r2⌋.toNat ≤ s.length - 1 := by
    have h1 : ((⌊r2⌋.toNat : ℕ) : ℚ) ≤ (s.length : ℚ) - 1 :=
      le_trans hfr2lo hr2
    have h2 : ((⌊r2⌋.toNat : ℕ) : ℚ) ≤ ((s.length - 1 : ℕ) : ℚ) := by
      rwa [Nat.cast_sub hn, Nat.cast_one]
    exact_mod_cast h2
  have hlo12 : ⌊r1⌋.toNat ≤ ⌊r2⌋.toNat :=
    Int.toNat_le_toNat (Int.floor_le_floor h12)
  have hlo1n : ⌊r1⌋.toNat ≤ s.length - 1 := le_trans hlo12 hlo2n
  have hhi1lt : min (⌊r1⌋.toNat + 1) (s.length - 1) < s.length := by omega
  have hhi2lt : min (⌊r2⌋.toNat + 1) (s.length - 1) < s.length := by omega
  have hlo2lt : ⌊r2⌋.toNat < s.length := by omega
  have hd1 : s.getD ⌊r1⌋.toNat 0 ≤ s.getD (min (⌊r1⌋.toNat + 1) (s.length - 1)) 0 :=
    sorted_getD_le s hs (by omega) hhi1lt
  have hd2 : s.getD ⌊r2⌋.toNat 0 ≤ s.getD (min (⌊r2⌋.toNat + 1) (s.length - 1)) 0 :=
    sorted_getD_le s hs (by omega) hhi2lt
  rcases Nat.eq_or_lt_of_le hlo12 with heq | hlt
  · rw [heq]
    have hfr : r1 - ((⌊r2⌋.toNat : ℕ) : ℚ) ≤ r2 - ((⌊r2⌋.toNat : ℕ) : ℚ) := by
      linarith
    have hdd : (0 : ℚ) ≤ s.getD (min (⌊r2⌋.toNat + 1) (s.length - 1)) 0 -
        s.getD ⌊r2⌋.toNat 0 := by linarith
    nlinarith [mul_le_mul_of_nonneg_right hfr hdd]
  · have hstep : min (⌊r1⌋.toNat + 1) (s.length - 1) ≤ ⌊r2⌋.toNat := by omega
    have hfrac1 : (0 : ℚ) ≤ r1 - ((⌊r1⌋.toNat : ℕ) : ℚ) := by linarith
    have hfrac1' : r1 - ((⌊r1⌋.toNat : ℕ) : ℚ) ≤ 1 := by linarith
    have hfrac2 : (0 : ℚ) ≤ r2 - ((⌊r2⌋.toNat : ℕ) : ℚ) := by linarith
    have hB : s.getD (min (⌊r1⌋.toNat + 1) (s.length - 1)) 0 ≤ s.getD ⌊r2⌋.toNat 0 :=
      sorted_getD_le s hs hstep hlo2lt
    nlinarith [mul_le_mul_of_nonneg_right hfrac1'
        (show (0 : ℚ) ≤ s.getD (min (⌊r1⌋.toNat + 1) (s.length - 1)) 0 -
          s.getD ⌊r1⌋.toNat 0 by linarith),
      mul_nonneg hfrac2 (show (0 : ℚ) ≤ s.getD (min (⌊r2⌋.toNat + 1) (s.length - 1)) 0 -
          s.getD ⌊r2⌋.toNat 0 by linarith),
      mul_nonneg hfrac1 (show (0 : ℚ) ≤ s.getD (min (⌊r1⌋.toNat + 1) (s.length - 1)) 0 -
          s.getD ⌊r1⌋.toNat 0 by linarith)]

lemma percentile_le_percentile {q1 q2 : ℚ} (xs : List ℚ) (hne : xs ≠ [])
    (h0 : 0 ≤ q1) (h12 : q1 ≤ q2) (h100 : q2 ≤ 100) :
    percentile q1 xs ≤ percentile q2 xs := by
  have hpos : 0 < xs.length := List.length_pos.mpr hne
  have hslen : (List.insertionSort (· ≤ ·) xs).length = xs.length :=
    List.length_insertionSort _ _
  have hsne : List.insertionSort (· ≤ ·) xs ≠ [] :=
    List.ne_nil_of_length_pos (hslen ▸ hpos)
  have hn0 : ¬(List.insertionSort (· ≤ ·) xs).length = 0 := by
    rw [hslen]
    omega
  have hn1 : (0 : ℚ) ≤ ((List.insertionSort (· ≤ ·) xs).length : ℚ) - 1 := by
    have : (1 : ℚ) ≤ ((List.insertionSort (· ≤ ·) xs).length : ℚ) := by
      exact_mod_cast Nat.one_le_iff_ne_zero.mpr hn0
    linarith
  simp only [percentile, if_neg hn0]
  apply interp_mono _ (List.sorted_insertionSort _ xs) hsne
  · exact mul_nonneg (div_nonneg h0 (by norm_num)) hn1
  · exact mul_le_mul_of_nonneg_right (by linarith) hn1
  · calc q2 / 100 * (((List.insertionSort (· ≤ ·) xs).length : ℚ) - 1) ≤
        1 * (((List.insertionSort (· ≤ ·) xs).length : ℚ) - 1) :=
          mul_le_mul_of_nonneg_right (by linarith) hn1
      _ = ((List.insertionSort (· ≤ ·) xs).length : ℚ) - 1 := one_mul _

lemma median_np_eq_percentile_50 (xs : List ℚ) (hne : xs ≠ []) :
    median_np xs = percentile 50 xs := by
  have hpos : 0 < xs.length := List.length_pos.mpr hne
  have hslen : (List.insertionSort (· ≤ ·) xs).length = xs.length :=
    List.length_insertionSort _ _
  have hn0 : ¬(List.insertionSort (· ≤ ·) xs).length = 0 := by
    rw [hslen]
    omega
  simp only [median_np, percentile, if_neg hn0]
  set s := List.insertionSort (· ≤ ·) xs with hsdef
  have hrank : (50 : ℚ) / 100 * ((s.length : ℚ) - 1) = ((s.length : ℚ) - 1) / 2 := by
    ring
  rw [hrank]
  rcases Nat.even_or_odd s.length with he | ho
  · obtain ⟨k, hk⟩ := he
    have hk1 : 1 ≤ k := by omega
    have hmodne : ¬s.length % 2 = 1 := by omega
    rw [if_neg hmodne]
    have hval : ((s.length : ℚ) - 1) / 2 = (k : ℚ) - 1 / 2 := by
      rw [hk]
      push_cast
      ring
    rw [hval]
    have hfloor : ⌊(k : ℚ) - 1 / 2⌋ = (k : ℤ) - 1 := by
      rw [Int.floor_eq_iff]
      constructor
      · push_cast
        linarith
      · push_cast
        linarith
    have htn : (⌊(k : ℚ) - 1 / 2⌋).toNat = k - 1 := by
      rw [hfloor]
      omega
    rw [htn]
    have hfrac : ((k : ℚ) - 1 / 2) - ((k - 1 : ℕ) : ℚ) = 1 / 2 := by
      rw [Nat.cast_sub hk1]
      push_cast
      ring
    rw [hfrac]
    have hhi : min (k - 1 + 1) (s.length - 1) = k := by omega
    rw [hhi]
    have h2 : s.length / 2 = k := by omega
    rw [h2]
    ring
  · obtain ⟨k, hk⟩ := ho
    have hmod : s.length % 2 = 1 := by omega
    rw [if_pos hmod]
    have hval : ((s.length : ℚ) - 1) / 2 = (k : ℚ) := by
      rw [hk]
      push_cast
      ring
    rw [hval]
    have htn : (⌊(k : ℚ)⌋).toNat = k := by
      rw [Int.floor_natCast]
      omega
    rw [htn]
    have h2 : s.length / 2 = k := by omega
    rw [h2]
    ring

lemma getD_map_range (g : Nat → ℚ) {i n : Nat} (h : i < n) :
    ((List.range n).map g).getD i 0 = g i := by
  rw [List.getD_eq_getElem _ 0 (by simpa using h)]
  simp

lemma column_ne_nil {m : SampleMatrix} (hm : m ≠ []) (j : Nat) :
    column m j ≠ [] := by
  simp only [column, ne_eq, List.map_eq_nil_iff]
  exact hm

/-- Claim C1: in every summary produced by forecast_prices from a non-empty
sample matrix, the bands are ordered at every forecast step:
low_10 ≤ low_25 ≤ median ≤ high_75 ≤ high_90. -/
theorem forecast_bands_monotone (predict : Predict) (prices : List ℚ)
    (n ns : Nat) (size : String) (w : World) (i : Nat) (hi : i < n)
    (hm : ((forecast_prices predict prices n ns size w).1).samples ≠ []) :
    ((forecast_prices predict prices n ns size w).1).low_10.getD i 0 ≤
      ((forecast_prices predict prices n ns size w).1).low_25.getD i 0 ∧
    ((forecast_prices predict prices n ns size w).1).low_25.getD i 0 ≤
      ((forecast_prices predict prices n ns size w).1).median.getD i 0 ∧
    ((forecast_prices predict prices n ns size w).1).median.getD i 0 ≤
      ((forecast_prices predict prices n ns size w).1).high_75.getD i 0 ∧
    ((forecast_prices predict prices n ns size w).1).high_75.getD i 0 ≤
      ((forecast_prices predict prices n ns size w).1).high_90.getD i 0 := by
  have hsam : ((forecast_prices predict prices n ns size w).1).samples =
      predict (get_pipeline size w).1 prices n ns := rfl
  have hmne : predict (get_pipeline size w).1 prices n ns ≠ [] := hsam ▸ hm
  have hcol : column (predict (get_pipeline size w).1 prices n ns) i ≠ [] :=
    column_ne_nil hmne i
  have h10 : ((forecast_prices predict prices n ns size w).1).low_10.getD i 0 =
      percentile 10 (column (predict (get_pipeline size w).1 prices n ns) i) :=
    getD_map_range _ hi
  have h25 : ((forecast_prices predict prices n ns size w).1).low_25.getD i 0 =
      percentile 25 (column (predict (get_pipeline size w).1 prices n ns) i) :=
    getD_map_range _ hi
  have h75 : ((forecast_prices predict prices n ns size w).1).high_75.getD i 0 =
      percentile 75 (column (predict (get_pipeline size w).1 prices n ns) i) :=
    getD_map_range _ hi
  have h90 : ((forecast_prices predict prices n ns size w).1).high_90.getD i 0 =
      percentile 90 (column (predict (get_pipeline size w).1 prices n ns) i) :=
    getD_map_range _ hi
  have hmed : ((forecast_prices predict prices n ns size w).1).median.getD i 0 =
      percentile 50 (column (predict (get_pipeline size w).1 prices n ns) i) := by
    have h1 : ((forecast_prices predict prices n ns size w).1).median.getD i 0 =
        median_np (column (predict (get_pipeline size w).1 prices n ns) i) :=
      getD_map_range _ hi
    rw [h1, median_np_eq_percentile_50 _ hcol]
  rw [h10, h25, h75, h90, hmed]
  refine ⟨?_, ?_, ?_, ?_⟩ <;>
    exact percentile_le_percentile _ hcol (by norm_num) (by norm_num) (by norm_num)

/-- Witness for C1 at the stub forecaster. -/
theorem forecast_bands_monotone_witness :
    ((forecast_prices stubPredict [100, 101] 3 4 "small" initWorld).1).low_10.getD 0 0 ≤
      ((forecast_prices stubPredict [100, 101] 3 4 "small" initWorld).1).low_25.getD 0 0 ∧
    ((forecast_prices stubPredict [100, 101] 3 4 "small" initWorld).1).low_25.getD 0 0 ≤
      ((forecast_prices stubPredict [100, 101] 3 4 "small" initWorld).1).median.getD 0 0 ∧
    ((forecast_prices stubPredict [100, 101] 3 4 "small" initWorld).1).median.getD 0 0 ≤
      ((forecast_prices stubPredict [100, 101] 3 4 "small" initWorld).1).high_75.getD 0 0 ∧
    ((forecast_prices stubPredict [100, 101] 3 4 "small" initWorld).1).high_75.getD 0 0 ≤
      ((forecast_prices stubPredict [100, 101] 3 4 "small" initWorld).1).high_90.getD 0 0 :=
  forecast_bands_monotone stubPredict [100, 101] 3 4 "small" initWorld 0
    (by norm_num) (List.cons_ne_nil _ _)

end Chronos
